import Mathlib

/-!
Verification of the fare-resolution engine of the Transport Fare Calculator
(`src/app.js`, version v11).  The JavaScript source is shallowly embedded:

* JS `Date` values (always constructed at local midnight by the code) are
  modelled as `Int` day numbers in the proleptic Gregorian calendar
  (days since 1970-01-01).  `new Date(y, m, d)` with out-of-range `m`/`d`
  normalises exactly like the civil-calendar day arithmetic used here, and
  all comparisons/differences the code performs on `getTime()` values are
  monotone images of the day numbers.
* JS strings are Lean `String`s; the character-class operations of the
  source (`\s`, dash variants, bracket removal, `toLowerCase`) are modelled
  on the character sets the regexes name.  `toLowerCase` is modelled on
  ASCII letters; the data of this application is ASCII + CJK, and CJK
  characters are fixed points of `toLowerCase`.
* JS objects / `Map`s keyed by strings are association lists preserving
  insertion order; `Array.prototype.sort` (stable since ES2019) is
  modelled by `List.insertionSort`, which is stable.
* `localeCompare(…, "ja")` (used only to order the `places` dropdown list)
  is modelled by code-point order; only membership in that list matters to
  any property proved below.
* Fallible code returns `Option` / `Except`; the "current year" that
  `parseDateLoose` reads from the wall clock is an explicit parameter.
-/

/-! ### JS character classes and string primitives -/

/-- Characters matched by the JS regex class `\s` (used by `trim`, `norm`,
`normHeaderKey`). -/
def isJsSpace (c : Char) : Bool :=
  c = ' ' || c = '\t' || c = '\n' || c = '\r' ||
  c.toNat = 0xB || c.toNat = 0xC || c.toNat = 0xA0 || c.toNat = 0x1680 ||
  (0x2000 ≤ c.toNat && c.toNat ≤ 0x200A) || c.toNat = 0x2028 ||
  c.toNat = 0x2029 || c.toNat = 0x202F || c.toNat = 0x205F ||
  c.toNat = 0x3000 || c.toNat = 0xFEFF

def isDigitC (c : Char) : Bool := '0' ≤ c && c ≤ '9'

/-- JS `toLowerCase`, on the ASCII range (CJK characters are unaffected). -/
def toLowerJs (c : Char) : Char :=
  if 'A' ≤ c && c ≤ 'Z' then Char.ofNat (c.toNat + 32) else c

def jsTrimChars (cs : List Char) : List Char :=
  ((cs.dropWhile isJsSpace).reverse.dropWhile isJsSpace).reverse

/-- JS `String.prototype.trim`. -/
def jsTrim (s : String) : String := String.mk (jsTrimChars s.data)

/-- `stripBOM` from the source: drop a single leading U+FEFF. -/
def stripBOM (s : String) : String :=
  match s.data with
  | c :: t => if c.toNat = 0xFEFF then String.mk t else s
  | [] => s

/-- `hay` starts with `sub` (chars). -/
def startsWithL : List Char → List Char → Bool
  | _, [] => true
  | [], _ :: _ => false
  | a :: as, b :: bs => a = b && startsWithL as bs

/-- Contiguous-substring test; JS `String.prototype.includes`. -/
def containsSub (sub : List Char) : List Char → Bool
  | [] => startsWithL [] sub
  | c :: t => startsWithL (c :: t) sub || containsSub sub t

def jsIncludes (hay sub : String) : Bool := containsSub sub.data hay.data

/-- JS `String.prototype.split` on a one-character separator. -/
def splitCharL (sep : Char) : List Char → List (List Char)
  | [] => [[]]
  | c :: t =>
    if c = sep then [] :: splitCharL sep t
    else
      match splitCharL sep t with
      | g :: gs => (c :: g) :: gs
      | [] => [[c]]

def jsSplit (sep : Char) (s : String) : List String :=
  (splitCharL sep s.data).map (fun cs => String.mk cs)

def jsEndsWith (s suffixStr : String) : Bool :=
  startsWithL s.data.reverse suffixStr.data.reverse

/-! ### Value normalisation (`norm`, `normKey`, `normHeaderKey`) -/

/-- Dash variants collapsed by `norm`: `/[‐‑–—−]/`. -/
def isNormDash (c : Char) : Bool :=
  c.toNat = 0x2010 || c.toNat = 0x2011 || c.toNat = 0x2013 ||
  c.toNat = 0x2014 || c.toNat = 0x2212

/-- Dash variants collapsed by `normHeaderKey`: `/[‐‑–—―ー]/`. -/
def isHeaderDash (c : Char) : Bool :=
  c.toNat = 0x2010 || c.toNat = 0x2011 || c.toNat = 0x2013 ||
  c.toNat = 0x2014 || c.toNat = 0x2015 || c.toNat = 0x30FC

/-- Bracket characters removed by `normKey` and `normHeaderKey`:
`/[()（）\[\]【】]/`. -/
def isBracketC (c : Char) : Bool :=
  c = '(' || c = ')' || c.toNat = 0xFF08 || c.toNat = 0xFF09 ||
  c = '[' || c = ']' || c.toNat = 0x3010 || c.toNat = 0x3011

/-- Middle-dot characters removed by `normKey`: `/[・･]/`. -/
def isMiddleDot (c : Char) : Bool := c.toNat = 0x30FB || c.toNat = 0xFF65

/-- `norm` from the source: trim, strip all whitespace (incl. full-width),
collapse dash variants to `-`, lowercase. -/
def norm (s : String) : String :=
  String.mk (((s.data.filter (fun c => !isJsSpace c)).map
    (fun c => if isNormDash c then '-' else c)).map toLowerJs)

/-- `normKey` from the source: `norm` plus removal of middle dots and
brackets. -/
def normKey (s : String) : String :=
  String.mk ((norm s).data.filter (fun c => !(isMiddleDot c) && !(isBracketC c)))

/-- `normHeaderKey` from the source. -/
def normHeaderKey (k : String) : String :=
  String.mk (((((stripBOM k).data.filter (fun c => !isJsSpace c)).filter
    (fun c => !isBracketC c)).map
    (fun c => if isHeaderDash c then '-' else c)).map toLowerJs)

/-! ### Header canonicalisation (`canonicalKey`, `normalizeRowKeys`) -/

/-- The `has` helper inside `canonicalKey`: the normalised label contains
some synonym (substring containment). -/
def hasSyn (nk : String) (syns : List String) : Bool :=
  syns.any (fun x => containsSub (normHeaderKey x).data nk.data)

/-- `canonicalKey` from the source, synonym sets and test order verbatim. -/
def canonicalKey (k : String) : String :=
  let nk := normHeaderKey k
  if hasSyn nk ["出発地", "発地", "出発", "from", "origin", "出発場所", "発駅", "乗車地"] then "from"
  else if hasSyn nk ["到着地", "着地", "到着", "to", "destination", "到着場所", "着駅", "降車地"] then "to"
  else if hasSyn nk ["運賃", "金額", "料金", "fare", "price", "運賃額"] then "fare"
  else if hasSyn nk ["価格タイプ", "価格ﾀｲﾌﾟ", "シーズン", "season", "type", "区分"] then "priceType"
  else if hasSyn nk ["搭乗期間開始", "搭乗開始", "boardfrom", "validfrom", "搭乗期間from"] then "wholeFrom"
  else if hasSyn nk ["搭乗期間終了", "搭乗終了", "boardto", "validto", "搭乗期間to"] then "wholeTo"
  else if hasSyn nk ["価格適用期間開始", "適用開始", "periodfrom", "farefrom", "価格適用開始"] then "validFrom"
  else if hasSyn nk ["価格適用期間終了", "適用終了", "periodto", "fareto", "価格適用終了"] then "validTo"
  else if hasSyn nk ["価格適用期間", "適用期間", "validrange", "period", "range"] then "validRange"
  else if hasSyn nk ["alias", "別名", "入力", "候補", "表記ゆれ", "表記揺れ", "synonym"] then "alias"
  else if hasSyn nk ["canonical", "正規", "正規名", "統一名", "正式名称"] then "canonical"
  else if hasSyn nk ["根拠", "備考", "rule", "注記", "参照"] then "rule"
  else nk

/-- Rows are JS objects: insertion-ordered string-keyed association lists. -/
abbrev Row := List (String × String)

def lookupA {α : Type} : List (String × α) → String → Option α
  | [], _ => none
  | (k, v) :: rest, key => if k = key then some v else lookupA rest key

/-- JS `obj[key] = v` / `Map.set`: replace in place or append. -/
def setA {α : Type} : List (String × α) → String → α → List (String × α)
  | [], key, v => [(key, v)]
  | (k, w) :: rest, key, v =>
    if k = key then (key, v) :: rest else (k, w) :: setA rest key v

/-- `normalizeRowKeys` from the source: canonicalise every key, keep the
first non-empty value per canonical key. -/
def normalizeRowKeys (row : Row) : Row :=
  row.foldl
    (fun out kv =>
      let ck := canonicalKey kv.1
      let val := jsTrim kv.2
      match lookupA out ck with
      | none => out ++ [(ck, val)]
      | some cur => if cur = "" ∧ val ≠ "" then setA out ck val else out)
    []

/-- `rr.k ?? ""` on a normalised row. -/
def getS (rr : Row) (k : String) : String := (lookupA rr k).getD ""

/-! ### Calendar arithmetic (model of JS `Date`)

Day numbers since 1970-01-01 in the proleptic Gregorian calendar, using the
standard civil-calendar conversion.  `daysFromCivil` is linear in `d`, which
reproduces JS `Date` day/month overflow normalisation. -/

def daysFromCivil (y m d : Int) : Int :=
  let y1 := if m ≤ 2 then y - 1 else y
  let era := y1.fdiv 400
  let yoe := y1 - era * 400
  let mp := if m > 2 then m - 3 else m + 9
  let doy := (153 * mp + 2).fdiv 5 + d - 1
  let doe := yoe * 365 + yoe.fdiv 4 - yoe.fdiv 100 + doy
  era * 146097 + doe - 719468

def civilFromDays (z : Int) : Int × Int × Int :=
  let z1 := z + 719468
  let era := z1.fdiv 146097
  let doe := z1 - era * 146097
  let yoe := (doe - doe.fdiv 1460 + doe.fdiv 36524 - doe.fdiv 146096).fdiv 365
  let y := yoe + era * 400
  let doy := doe - (365 * yoe + yoe.fdiv 4 - yoe.fdiv 100)
  let mp := (5 * doy + 2).fdiv 153
  let d := doy - (153 * mp + 2).fdiv 5 + 1
  let m := if mp < 10 then mp + 3 else mp - 9
  (if m ≤ 2 then y + 1 else y, m, d)

/-- `new Date(y, m0, d)` with JS month/day normalisation (`m0` 0-based). -/
def mkDate (y m0 d : Int) : Int :=
  daysFromCivil (y + m0.fdiv 12) (m0.emod 12 + 1) d

/-- JS `getFullYear()`. -/
def yearOf (z : Int) : Int := (civilFromDays z).1

/-- JS `getMonth()` (0-based). -/
def monthOf (z : Int) : Int := (civilFromDays z).2.1 - 1

/-- JS `getDate()`. -/
def dayOf (z : Int) : Int := (civilFromDays z).2.2

/-- `shiftYear` from the source: `setFullYear(getFullYear() + plus)`
(Feb 29 overflowing into Mar 1, as in JS). -/
def shiftYear (z plus : Int) : Int :=
  daysFromCivil (yearOf z + plus) ((civilFromDays z).2.1) (dayOf z)

def pad2 (n : Int) : String := if n < 10 then "0" ++ toString n else toString n

/-- `ymd` from the source: `YYYY-MM-DD` rendering. -/
def ymd (z : Int) : String :=
  toString (yearOf z) ++ "-" ++ pad2 ((civilFromDays z).2.1) ++ "-" ++ pad2 (dayOf z)

/-! ### `parseDateLoose` -/

def digitsVal (cs : List Char) : Int :=
  cs.foldl (fun a c => a * 10 + ((c.toNat : Int) - 48)) 0

/-- Anchored match of `^(\d{4})sep(\d{1,2})sep(\d{1,2})$`. -/
def matchYMD (sep : Char) (cs : List Char) : Option (Int × Int × Int) :=
  let g1 := cs.takeWhile isDigitC
  let r1 := cs.dropWhile isDigitC
  if g1.length = 4 then
    match r1 with
    | c1 :: r2 =>
      if c1 = sep then
        let g2 := r2.takeWhile isDigitC
        let r3 := r2.dropWhile isDigitC
        if 1 ≤ g2.length ∧ g2.length ≤ 2 then
          match r3 with
          | c2 :: r4 =>
            if c2 = sep then
              let g3 := r4.takeWhile isDigitC
              let r5 := r4.dropWhile isDigitC
              if (1 ≤ g3.length ∧ g3.length ≤ 2) ∧ r5 = [] then
                some (digitsVal g1, digitsVal g2, digitsVal g3)
              else none
            else none
          | [] => none
        else none
      else none
    | [] => none
  else none

/-- Anchored match of `^(\d{1,2})[\/\-](\d{1,2})$`. -/
def matchMD (cs : List Char) : Option (Int × Int) :=
  let g1 := cs.takeWhile isDigitC
  let r1 := cs.dropWhile isDigitC
  if 1 ≤ g1.length ∧ g1.length ≤ 2 then
    match r1 with
    | c1 :: r2 =>
      if c1 = '/' ∨ c1 = '-' then
        let g2 := r2.takeWhile isDigitC
        let r3 := r2.dropWhile isDigitC
        if (1 ≤ g2.length ∧ g2.length ≤ 2) ∧ r3 = [] then
          some (digitsVal g1, digitsVal g2)
        else none
      else none
    | [] => none
  else none

/-- `parseDateLoose` from `src/app.js` (v11): `YYYY-MM-DD`, `YYYY/MM/DD`,
then bare `M/D` or `M-D` with the current calendar year (an explicit
parameter here); anything else is `none`. -/
def parseDateLoose (currentYear : Int) (s : String) : Option Int :=
  let t := (jsTrim s).data
  if t = [] then none
  else
    match matchYMD '-' t with
    | some (y, m, d) => some (mkDate y (m - 1) d)
    | none =>
      match matchYMD '/' t with
      | some (y, m, d) => some (mkDate y (m - 1) d)
      | none =>
        match matchMD t with
        | some (m, d) => some (mkDate currentYear (m - 1) d)
        | none => none

/-! ### `parsePeriodRanges`

Model of the unanchored regex
`(\d{4}[\/\-]\d{1,2}[\/\-]\d{1,2})\s*[〜～~\-–—―]\s*(\d{4}[\/\-]\d{1,2}[\/\-]\d{1,2})`
applied to each `/`-separated segment.  A `\d{1,2}` group that must be
followed by a non-digit token fails outright on a longer digit run (regex
backtracking leaves a digit in front of the next token either way); the
trailing `\d{1,2}` of the second date is at the end of the pattern and so
greedily takes at most two digits. -/

/-- Wave-dash class `[〜～~\-–—―]` separating the two dates. -/
def isWaveDash (c : Char) : Bool :=
  c.toNat = 0x301C || c.toNat = 0xFF5E || c = '~' || c = '-' ||
  c.toNat = 0x2013 || c.toNat = 0x2014 || c.toNat = 0x2015

/-- Match `\d{4}[\/\-]\d{1,2}[\/\-]\d{1,2}` at the head of `cs`, returning the
matched characters and the remainder.  `finalGroup` selects the behaviour of
the last `\d{1,2}` (end of pattern: greedy two digits; otherwise the digit
run must have length 1–2). -/
def matchDatePrefix (finalGroup : Bool) : List Char → Option (List Char × List Char)
  | a :: b :: c :: d :: s1 :: rest =>
    if isDigitC a ∧ isDigitC b ∧ isDigitC c ∧ isDigitC d ∧ (s1 = '/' ∨ s1 = '-') then
      let g2 := rest.takeWhile isDigitC
      let r2 := rest.dropWhile isDigitC
      if 1 ≤ g2.length ∧ g2.length ≤ 2 then
        match r2 with
        | s2 :: rest2 =>
          if s2 = '/' ∨ s2 = '-' then
            let run := rest2.takeWhile isDigitC
            if finalGroup then
              if 1 ≤ run.length then
                let g3 := run.take 2
                some ([a, b, c, d, s1] ++ g2 ++ [s2] ++ g3, rest2.drop g3.length)
              else none
            else
              if 1 ≤ run.length ∧ run.length ≤ 2 then
                some ([a, b, c, d, s1] ++ g2 ++ [s2] ++ run, rest2.dropWhile isDigitC)
              else none
          else none
        | [] => none
      else none
    else none
  | _ => none

/-- Match the whole range pattern at the head of `cs`; returns the two date
substrings. -/
def matchRangeAt (cs : List Char) : Option (List Char × List Char) :=
  match matchDatePrefix false cs with
  | none => none
  | some (d1, r1) =>
    match r1.dropWhile isJsSpace with
    | [] => none
    | w :: r3 =>
      if isWaveDash w then
        match matchDatePrefix true (r3.dropWhile isJsSpace) with
        | none => none
        | some (d2, _) => some (d1, d2)
      else none

/-- Leftmost unanchored search for the range pattern. -/
def findRangeIn : List Char → Option (List Char × List Char)
  | [] => none
  | c :: t =>
    match matchRangeAt (c :: t) with
    | some r => some r
    | none => findRangeIn t

/-- `parsePeriodRanges` from the source. -/
def parsePeriodRanges (cy : Int) (periodStr : String) : List (Int × Int) :=
  let t := jsTrim periodStr
  if t = "" then []
  else
    (((jsSplit '/' t).map jsTrim).filter (fun p => decide (p ≠ ""))).filterMap
      (fun p =>
        match findRangeIn p.data with
        | none => none
        | some (d1, d2) =>
          match parseDateLoose cy (String.mk d1), parseDateLoose cy (String.mk d2) with
          | some a, some b => some (a, b)
          | _, _ => none)

/-! ### Year alignment and fare-record construction -/

/-- `alignToWholeRange` from `src/app.js`.  The period endpoints are always
`Date`s at every call site (the `instanceof` guard on them never fires), so
they are plain day numbers here; the boarding-window bounds are optional. -/
def alignToWholeRange (pFrom pTo : Int) (wholeFrom wholeTo : Option Int) :
    Option (Int × Int) :=
  match wholeFrom, wholeTo with
  | some wf, some wt =>
    let crosses := yearOf wt > yearOf wf
    let startY := yearOf wf
    let startM := monthOf wf
    let f1 := if crosses ∧ yearOf pFrom = startY ∧ monthOf pFrom < startM then shiftYear pFrom 1 else pFrom
    let t1 := if crosses ∧ yearOf pTo = startY ∧ monthOf pTo < startM then shiftYear pTo 1 else pTo
    let ft := if crosses ∧ t1 < wf then (shiftYear f1 1, shiftYear t1 1) else (f1, t1)
    let vf := max ft.1 wf
    let vt := min ft.2 wt
    if vf > vt then none else some (vf, vt)
  | _, _ => some (pFrom, pTo)

structure FareRecord where
  fromPlace : String
  toPlace : String
  priceType : String
  fare : Int
  validFrom : Int
  validTo : Int
  source : String
deriving DecidableEq, Repr

/-- Fare-cell digit extraction: `replace(/[^0-9-]/g, "")`. -/
def extractFareDigits (s : String) : String :=
  String.mk (s.data.filter (fun c => isDigitC c || c = '-'))

/-- JS `parseInt(s, 10)`: skip whitespace, optional sign, longest digit
prefix; no digits means `NaN` (`none`). -/
def jsParseInt10 (s : String) : Option Int :=
  let cs := s.data.dropWhile isJsSpace
  match cs with
  | [] => none
  | c :: rest =>
    if c = '-' then
      let ds := rest.takeWhile isDigitC
      if ds = [] then none else some (-(digitsVal ds))
    else if c = '+' then
      let ds := rest.takeWhile isDigitC
      if ds = [] then none else some (digitsVal ds)
    else
      let ds := (c :: rest).takeWhile isDigitC
      if ds = [] then none else some (digitsVal ds)

/-- The fare computation of `buildDBFromRows`:
`parseInt((cell).replace(/[^0-9-]/g, ""), 10)`, with non-finite results
(`NaN`) coerced to 0. -/
def parseFareJs (cell : String) : Int :=
  (jsParseInt10 (extractFareDigits cell)).getD 0

/-- Dedup key `keyOf` from the source. -/
def keyOf (f t pt : String) (a b : Int) : String :=
  f ++ "||" ++ t ++ "||" ++ pt ++ "||" ++ ymd a ++ "||" ++ ymd b

/-- Period extraction for one normalised row (steps 1–3 of the source:
explicit `validFrom`/`validTo` columns, then the `validRange` string column,
then the whole boarding window). -/
def rowPeriods (cy : Int) (rr : Row) (wholeFrom wholeTo : Option Int) :
    List (Int × Int) :=
  match parseDateLoose cy (getS rr "validFrom"), parseDateLoose cy (getS rr "validTo") with
  | some a, some b => [(a, b)]
  | _, _ =>
    let ps := parsePeriodRanges cy (getS rr "validRange")
    if ps ≠ [] then ps
    else
      match wholeFrom, wholeTo with
      | some a, some b => [(a, b)]
      | _, _ => []

/-- The `for (const p of periods)` loop of `buildDBFromRows`: align each
period, skip dedup-key collisions, emit records in order. -/
def processPeriods (src f t pt : String) (fare : Int) (wf wt : Option Int) :
    List (Int × Int) → List String → List FareRecord × List String
  | [], seen => ([], seen)
  | p :: rest, seen =>
    match alignToWholeRange p.1 p.2 wf wt with
    | none => processPeriods src f t pt fare wf wt rest seen
    | some ab =>
      let uniq := keyOf f t pt ab.1 ab.2
      if seen.contains uniq then processPeriods src f t pt fare wf wt rest seen
      else
        let out := processPeriods src f t pt fare wf wt rest (seen ++ [uniq])
        (⟨f, t, pt, fare, ab.1, ab.2, src⟩ :: out.1, out.2)

/-- The row loop of `buildDBFromRows` (the `seen` dedup set threads through
all rows). -/
def processRows (cy : Int) (src : String) :
    List Row → List String → List FareRecord × List String
  | [], seen => ([], seen)
  | r :: rest, seen =>
    let rr := normalizeRowKeys r
    let fromRaw := jsTrim (getS rr "from")
    let toRaw := jsTrim (getS rr "to")
    if fromRaw = "" ∨ toRaw = "" then processRows cy src rest seen
    else
      let priceType := if jsTrim (getS rr "priceType") = "" then "通常" else jsTrim (getS rr "priceType")
      let fare := parseFareJs ((lookupA rr "fare").getD "0")
      let wholeFrom := parseDateLoose cy (getS rr "wholeFrom")
      let wholeTo := parseDateLoose cy (getS rr "wholeTo")
      let periods := rowPeriods cy rr wholeFrom wholeTo
      let first := processPeriods src fromRaw toRaw priceType fare wholeFrom wholeTo periods seen
      let restOut := processRows cy src rest first.2
      (first.1 ++ restOut.1, restOut.2)

/-! ### Alias table and database construction -/

/-- `p.replace(/(都|道|府|県)$/, "")`. -/
def stripAdminSuffix (p : String) : String :=
  match p.data.reverse with
  | c :: rest =>
    if c = '都' ∨ c = '道' ∨ c = '府' ∨ c = '県' then String.mk rest.reverse else p
  | [] => p

/-- `p.replace(/空港$/, "")`. -/
def stripAirportSuffix (p : String) : String :=
  if jsEndsWith p "空港" then String.mk (p.data.take (p.data.length - 2)) else p

/-- `buildAliasDefaultsFromPlaces` from the source: self-mappings, then
suffix-stripped variants (only when the key is new), then the fixed common
table (only when the canonical target is a known place and the key is
new). -/
def buildAliasDefaultsFromPlaces (places : List String) : List (String × String) :=
  let m0 := places.foldl (fun m p => setA m (normKey p) p) []
  let m1 := places.foldl
    (fun m p =>
      (([stripAdminSuffix p, stripAirportSuffix p]).filter
        (fun v => decide (v ≠ "" ∧ v ≠ p))).foldl
        (fun m v =>
          let k := normKey v
          if (lookupA m k).isSome then m else setA m k p)
        m)
    m0
  ([("羽田", "東京"), ("成田", "東京"), ("那覇", "沖縄")]).foldl
    (fun m ac =>
      if places.contains ac.2 ∧ (lookupA m (normKey ac.1)).isNone
      then setA m (normKey ac.1) ac.2 else m)
    m1

/-- The external-alias merge loop of `buildDBFromRows` (unconditional
override). -/
def mergeAliasRows (m : List (String × String)) (aliasRows : List Row) :
    List (String × String) :=
  aliasRows.foldl
    (fun m a =>
      let aa := normalizeRowKeys a
      let aliasV := jsTrim (getS aa "alias")
      let canonV := jsTrim (getS aa "canonical")
      if aliasV = "" ∨ canonV = "" then m else setA m (normKey aliasV) canonV)
    m

/-- The in-memory database built by `buildDBFromRows` (UI metadata
omitted). -/
structure DBType where
  faresRows : List FareRecord
  routeMap : List (String × List FareRecord)
  places : List String
  aliasToCanon : List (String × String)
deriving DecidableEq, Repr

/-- `resolvePlace` from the source. -/
def resolvePlace (db : DBType) (name : String) : String :=
  let k := normKey name
  if k = "" then ""
  else
    match lookupA db.aliasToCanon k with
    | some v => if v = "" then jsTrim name else v
    | none => jsTrim name

/-- Route-index group order: the comparator
`a.validFrom - b.validFrom || a.validTo - b.validTo || a.fare - b.fare`
as a (total, transitive) `≤` relation. -/
def idxLe (a b : FareRecord) : Prop :=
  a.validFrom < b.validFrom ∨
    (a.validFrom = b.validFrom ∧
      (a.validTo < b.validTo ∨ (a.validTo = b.validTo ∧ a.fare ≤ b.fare)))

instance : DecidableRel idxLe := fun a b => by unfold idxLe; infer_instance

instance : IsTotal FareRecord idxLe :=
  ⟨fun a b => by unfold idxLe; omega⟩

instance : IsTrans FareRecord idxLe :=
  ⟨fun a b c hab hbc => by unfold idxLe at *; omega⟩

/-- The `placesSet` accumulation (a JS `Set`: insertion-ordered, dedup). -/
def addSet (l : List String) (x : String) : List String :=
  if l.contains x then l else l ++ [x]

def placesOf (recs : List FareRecord) : List String :=
  recs.foldl (fun s r => addSet (addSet s r.fromPlace) r.toPlace) []

/-- Code-point lexicographic `≤` on character lists. -/
def charListLe : List Char → List Char → Bool
  | [], _ => true
  | _ :: _, [] => false
  | a :: as, b :: bs => if a = b then charListLe as bs else decide (a.toNat < b.toNat)

/-- Code-point lexicographic `≤` on strings. -/
def strLe (a b : String) : Prop := charListLe a.data b.data = true

instance : DecidableRel strLe := fun a b => by unfold strLe; infer_instance

/-- `Array.from(placesSet).sort((a,b) => a.localeCompare(b,"ja"))`, modelled
with code-point order (see the header comment). -/
def sortStrings (l : List String) : List String :=
  List.insertionSort strLe l

/-- Grouping of records into the route index, key `normKey(from)||normKey(to)`. -/
def groupFares (fares : List FareRecord) : List (String × List FareRecord) :=
  fares.foldl
    (fun m row =>
      let k := normKey row.fromPlace ++ "||" ++ normKey row.toPlace
      match lookupA m k with
      | some arr => setA m k (arr ++ [row])
      | none => m ++ [(k, [row])])
    []

/-- Sorting of every route-index group. -/
def sortGroups (m : List (String × List FareRecord)) :
    List (String × List FareRecord) :=
  m.map (fun kv => (kv.1, List.insertionSort idxLe kv.2))

/-- `buildDBFromRows` from the source (DOM/metadata side effects omitted;
`cy` is the wall-clock year read by `parseDateLoose`). -/
def buildDBFromRows (cy : Int) (fareRows : List Row) (sourceName : String)
    (aliasRows : List Row) : DBType :=
  let fares := (processRows cy sourceName fareRows []).1
  let places := sortStrings (placesOf fares)
  let aliasToCanon := mergeAliasRows (buildAliasDefaultsFromPlaces places) aliasRows
  let routeMap := sortGroups (groupFares fares)
  ⟨fares, routeMap, places, aliasToCanon⟩

/-! ### The resolver (`inRange`, `pickBest`, `findFare`) -/

/-- `inRange` from the source (inclusive both ends). -/
def inRangeB (d a b : Int) : Bool := decide (a ≤ d) && decide (d ≤ b)

def winLen (r : FareRecord) : Int := r.validTo - r.validFrom

/-- Comparator rank of the peak tier: `(priceType === "ピーク") ? 0 : 1`. -/
def peakRank (r : FareRecord) : Int := if r.priceType = "ピーク" then 0 else 1

/-- The `pickBest` sort comparator. -/
def cmpRecords (a b : FareRecord) : Int :=
  if winLen a ≠ winLen b then winLen a - winLen b
  else if peakRank a ≠ peakRank b then peakRank a - peakRank b
  else a.fare - b.fare

/-- The `≤` preorder induced by `cmpRecords` (`comparator(a,b) ≤ 0`). -/
def recLe (a b : FareRecord) : Prop := cmpRecords a b ≤ 0

/-- The three-level order of the specification, stated independently of the
comparator: narrowest window first, then peak tier, then lowest fare. -/
def specLe (a b : FareRecord) : Prop :=
  winLen a < winLen b ∨
    (winLen a = winLen b ∧
      (peakRank a < peakRank b ∨ (peakRank a = peakRank b ∧ a.fare ≤ b.fare)))

theorem cmpRecords_le_iff (a b : FareRecord) : cmpRecords a b ≤ 0 ↔ specLe a b := by
  unfold cmpRecords specLe
  split_ifs with h1 h2 <;> omega

instance : DecidableRel recLe := fun a b => by unfold recLe; infer_instance

instance : IsTotal FareRecord recLe :=
  ⟨fun a b => by
    unfold recLe cmpRecords
    split_ifs <;> omega⟩

instance : IsTrans FareRecord recLe :=
  ⟨fun a b c hab hbc => by
    rw [recLe, cmpRecords_le_iff] at *
    unfold specLe at *
    omega⟩

/-- `pickBest` from the source: filter the date-covering candidates, stable
sort by the comparator, take the first.  (The `r.validFrom && r.validTo`
existence guard of the source is vacuous here: records always carry both
dates.) -/
def pickBest (rows : List FareRecord) (date : Int) : Option FareRecord :=
  let cands := rows.filter (fun r => inRangeB date r.validFrom r.validTo)
  (List.insertionSort recLe cands).head?

/-- `findFare`'s result object.  The miss branch of the source leaves
`usedReverse` undefined, hence the `Option`. -/
structure MatchResult where
  hit : Bool
  row : Option FareRecord
  fromPlace : String
  toPlace : String
  tried : List String
  hasAnyRoute : Bool
  usedReverse : Option Bool
deriving DecidableEq, Repr

def dirStr (a b : String) : String := a ++ "→" ++ b

/-- `DB.routeMap.get(normKey(a) + "||" + normKey(b)) || []`. -/
def routeList (db : DBType) (a b : String) : List FareRecord :=
  (lookupA db.routeMap (normKey a ++ "||" ++ normKey b)).getD []

/-- `findFare` from the source. -/
def findFare (db : DBType) (date : Int) (fromS toS : String) : MatchResult :=
  let f := resolvePlace db fromS
  let t := resolvePlace db toS
  let hasAnyRoute :=
    decide (0 < (routeList db f t).length) || decide (0 < (routeList db t f).length)
  match pickBest (routeList db f t) date with
  | some best => ⟨true, some best, f, t, [dirStr f t], hasAnyRoute, some false⟩
  | none =>
    match pickBest (routeList db t f) date with
    | some best =>
      ⟨true, some best, f, t, [dirStr f t, dirStr t f], hasAnyRoute, some true⟩
    | none => ⟨false, none, f, t, [dirStr f t, dirStr t f], hasAnyRoute, none⟩

/-! ### Tabular input (`parseTSV`, `parseCSV`, shape check) -/

/-- `r[header[j]] = (cols[j] ?? "").trim()` over all header positions. -/
def buildObj : List String → List String → Row → Row
  | [], _, acc => acc
  | h :: hs, [], acc => buildObj hs [] (setA acc h "")
  | h :: hs, c :: cs, acc => buildObj hs cs (setA acc h (jsTrim c))

/-- `parseTSV` from the source. -/
def parseTSV (text : String) : List Row :=
  let lines := (jsSplit '\n' (String.mk (text.data.filter (fun c => c ≠ '\r')))).filter
    (fun l => decide (jsTrim l ≠ ""))
  match lines with
  | [] => []
  | h :: rest =>
    let header := (jsSplit '\t' h).map jsTrim
    rest.map (fun line => buildObj header (jsSplit '\t' line) [])

/-- The character state machine of `parseCSV` (arguments: in-quote flag,
current cell, current row, finished rows, remaining input). -/
def csvScan : Bool → List Char → List String → List (List String) → List Char →
    List (List String)
  | _, cell, cur, rows, [] =>
    if cell ≠ [] ∨ cur ≠ [] then rows ++ [cur ++ [String.mk cell]] else rows
  | true, cell, cur, rows, '"' :: '"' :: rest => csvScan true (cell ++ ['"']) cur rows rest
  | true, cell, cur, rows, '"' :: rest => csvScan false cell cur rows rest
  | true, cell, cur, rows, c :: rest => csvScan true (cell ++ [c]) cur rows rest
  | false, cell, cur, rows, '"' :: rest => csvScan true cell cur rows rest
  | false, cell, cur, rows, ',' :: rest => csvScan false [] (cur ++ [String.mk cell]) rows rest
  | false, cell, cur, rows, '\n' :: rest => csvScan false [] [] (rows ++ [cur ++ [String.mk cell]]) rest
  | false, cell, cur, rows, '\r' :: rest => csvScan false cell cur rows rest
  | false, cell, cur, rows, c :: rest => csvScan false (cell ++ [c]) cur rows rest

/-- `parseCSV` from the source. -/
def parseCSV (text : String) : List Row :=
  match csvScan false [] [] [] text.data with
  | [] => []
  | h :: rest =>
    let header := h.map (fun x => jsTrim (stripBOM x))
    (rest.filter (fun r => !(r.all (fun x => decide (jsTrim x = ""))))).map
      (fun cols => buildObj header cols [])

/-- `hasFareShape` from the source: `(ok, reason)`. -/
def hasFareShape (rows : List Row) : Bool × String :=
  match rows with
  | [] => (false, "no rows")
  | r0 :: _ =>
    let n := normalizeRowKeys r0
    let ok := decide (getS n "from" ≠ "") && decide (getS n "to" ≠ "") &&
      (lookupA n "fare").isSome
    if ok then (true, "")
    else (false, "headers=" ++ String.intercalate "," (r0.map (fun kv => kv.1)))

/-- The CSV/TSV format decision of `parseFareRowsFromText`. -/
def decideIsTSV (text hintedName : String) : Bool :=
  let name := String.mk (hintedName.data.map toLowerJs)
  jsEndsWith name ".tsv" ||
    (!(jsEndsWith name ".csv") && (jsIncludes text "\t" && !(jsIncludes text ",")))

/-- `parseFareRowsFromText` from the source; the thrown `Error` is the
`Except.error` case, the `format` field is the `isTSV` flag. -/
def parseFareRowsFromText (text hintedName : String) :
    Except String (List Row × Bool) :=
  let isTSV := decideIsTSV text hintedName
  let rows := if isTSV then parseTSV text else parseCSV text
  let shape := hasFareShape rows
  if shape.1 then Except.ok (rows, isTSV)
  else Except.error ("データ形式が不正です（出発地/到着地/運賃が見つかりません）。" ++ shape.2)

/-! ### Substring lemmas -/

theorem startsWithL_iff :
    ∀ (hay sub : List Char), startsWithL hay sub = true ↔ ∃ rest, hay = sub ++ rest
  | hay, [] => by simp [startsWithL]
  | [], _ :: _ => by simp [startsWithL]
  | a :: as, b :: bs => by
    rw [startsWithL, Bool.and_eq_true, startsWithL_iff as bs]
    constructor
    · rintro ⟨hab, rest, hr⟩
      exact ⟨rest, by simp [hr, (by simpa using hab : a = b)]⟩
    · rintro ⟨rest, hr⟩
      obtain ⟨h1, h2⟩ := List.cons.inj hr
      exact ⟨by simpa using h1, rest, h2⟩

theorem containsSub_iff :
    ∀ (hay sub : List Char),
      containsSub sub hay = true ↔ ∃ pre rest, hay = pre ++ sub ++ rest
  | [], sub => by
    rw [containsSub, startsWithL_iff]
    constructor
    · rintro ⟨rest, hr⟩
      exact ⟨[], rest, by simpa using hr⟩
    · rintro ⟨pre, rest, hr⟩
      exact ⟨rest ++ pre, by
        obtain ⟨h1, h2, h3⟩ : pre = [] ∧ sub = [] ∧ rest = [] := by simpa using hr.symm
        simp [h1, h2, h3]⟩
  | c :: t, sub => by
    rw [containsSub, Bool.or_eq_true, startsWithL_iff, containsSub_iff t sub]
    constructor
    · rintro (⟨rest, hr⟩ | ⟨pre, rest, hr⟩)
      · exact ⟨[], rest, by simpa using hr⟩
      · exact ⟨c :: pre, rest, by simp [hr]⟩
    · rintro ⟨pre, rest, hr⟩
      cases pre with
      | nil => exact Or.inl ⟨rest, by simpa using hr⟩
      | cons p ps =>
        obtain ⟨_, h2⟩ := List.cons.inj hr
        exact Or.inr ⟨ps, rest, h2⟩

/-- Substring containment is transitive. -/
theorem containsSub_trans {a b c : List Char}
    (h1 : containsSub b a = true) (h2 : containsSub c b = true) :
    containsSub c a = true := by
  rw [containsSub_iff] at *
  obtain ⟨p1, s1, ha⟩ := h1
  obtain ⟨p2, s2, hb⟩ := h2
  exact ⟨p1 ++ p2, s2 ++ s1, by simp [ha, hb]⟩

/-- `findFare` as the specification words it: resolve both places, try the
forward directional key, consult the reverse key only when the forward
direction yields no date-covering candidate (marking such a hit as
reverse-derived, with both directions in `tried`), otherwise report a miss
whose `hasAnyRoute` is true exactly when either directional index entry is
non-empty, regardless of date. -/
def findFareSpec (db : DBType) (date : Int) (fromS toS : String) : MatchResult :=
  let f := resolvePlace db fromS
  let t := resolvePlace db toS
  let fwd := routeList db f t
  let rev := routeList db t f
  let anyRoute := !fwd.isEmpty || !rev.isEmpty
  if (pickBest fwd date).isSome then
    ⟨true, pickBest fwd date, f, t, [dirStr f t], anyRoute, some false⟩
  else if (pickBest rev date).isSome then
    ⟨true, pickBest rev date, f, t, [dirStr f t, dirStr t f], anyRoute, some true⟩
  else ⟨false, none, f, t, [dirStr f t, dirStr t f], anyRoute, none⟩

/-! ### Correctness of `pickBest` -/

theorem inRangeB_iff (d a b : Int) : inRangeB d a b = true ↔ a ≤ d ∧ d ≤ b := by
  simp [inRangeB]

theorem recLe_refl (a : FareRecord) : recLe a a := by
  unfold recLe cmpRecords
  simp

/-- A record returned by `pickBest` is a date-covering member of the
candidate list and is minimal, in the three-level specification order,
among all date-covering members. -/
theorem pickBest_eq_some {rows : List FareRecord} {date : Int} {r : FareRecord}
    (h : pickBest rows date = some r) :
    r ∈ rows ∧ (r.validFrom ≤ date ∧ date ≤ r.validTo) ∧
      ∀ c ∈ rows, c.validFrom ≤ date → date ≤ c.validTo → specLe r c := by
  simp only [pickBest] at h
  set cands := rows.filter (fun r => inRangeB date r.validFrom r.validTo) with hcands
  have hperm : List.Perm (List.insertionSort recLe cands) cands :=
    List.perm_insertionSort recLe cands
  cases hS : List.insertionSort recLe cands with
  | nil => rw [hS] at h; simp at h
  | cons x tail =>
    rw [hS] at h
    simp only [List.head?_cons, Option.some.injEq] at h
    subst h
    have hmemc : x ∈ cands := hperm.subset (by rw [hS]; exact List.mem_cons_self x tail)
    rw [hcands] at hmemc
    obtain ⟨hrrows, hrcov⟩ := List.mem_filter.1 hmemc
    refine ⟨hrrows, (inRangeB_iff _ _ _).1 hrcov, ?_⟩
    intro c hc h1 h2
    have hccands : c ∈ cands := by
      rw [hcands]
      exact List.mem_filter.2 ⟨hc, (inRangeB_iff _ _ _).2 ⟨h1, h2⟩⟩
    have hcS : c ∈ List.insertionSort recLe cands := hperm.symm.subset hccands
    rw [hS] at hcS
    rcases List.mem_cons.1 hcS with rfl | hctail
    · exact (cmpRecords_le_iff _ _).1 (recLe_refl c)
    · have hsorted := List.sorted_insertionSort recLe cands
      rw [hS] at hsorted
      exact (cmpRecords_le_iff _ _).1 ((List.sorted_cons.1 hsorted).1 c hctail)

/-- Claim C1.  For every date and candidate list under a route key, a hit
returned by the resolver's `pickBest` covers the date (inclusive) and is
optimal among all date-covering candidates in the three-level order
(narrowest window, then the literal "ピーク" tier, then lowest fare); and
any record returned by `findFare` covers the queried date. -/
theorem c1_best_match_selection :
    (∀ (rows : List FareRecord) (date : Int) (r : FareRecord),
        pickBest rows date = some r →
          r ∈ rows ∧ (r.validFrom ≤ date ∧ date ≤ r.validTo) ∧
            ∀ c ∈ rows, c.validFrom ≤ date → date ≤ c.validTo → specLe r c) ∧
      ∀ (db : DBType) (date : Int) (fromS toS : String) (r : FareRecord),
        (findFare db date fromS toS).row = some r →
          r.validFrom ≤ date ∧ date ≤ r.validTo := by
  constructor
  · intro rows date r h
    exact pickBest_eq_some h
  · intro db date fromS toS r h
    simp only [findFare] at h
    cases h1 : pickBest (routeList db (resolvePlace db fromS) (resolvePlace db toS)) date with
    | some best =>
      rw [h1] at h
      simp only [Option.some.injEq] at h
      subst h
      exact (pickBest_eq_some h1).2.1
    | none =>
      rw [h1] at h
      cases h2 : pickBest (routeList db (resolvePlace db toS) (resolvePlace db fromS)) date with
      | some best =>
        rw [h2] at h
        simp only [Option.some.injEq] at h
        subst h
        exact (pickBest_eq_some h2).2.1
      | none =>
        rw [h2] at h
        simp at h

def c1rows : List FareRecord :=
  [⟨"A", "B", "通常", 100, 0, 30, "s"⟩, ⟨"A", "B", "通常", 200, 5, 20, "s"⟩]

def c1r : FareRecord := ⟨"A", "B", "通常", 200, 5, 20, "s"⟩

/-- Witness for C1 at a concrete candidate list and date. -/
theorem c1_best_match_selection_witness :
    c1r ∈ c1rows ∧ (c1r.validFrom ≤ 10 ∧ (10 : Int) ≤ c1r.validTo) ∧
      ∀ c ∈ c1rows, c.validFrom ≤ 10 → (10 : Int) ≤ c.validTo → specLe c1r c :=
  c1_best_match_selection.1 c1rows 10 c1r (by decide)

theorem length_pos_eq_not_isEmpty (l : List FareRecord) :
    decide (0 < l.length) = !l.isEmpty := by
  cases l <;> simp

/-- Claim C2.  `findFare` behaves exactly as specified: forward directional
key first; the reverse key is consulted only when the forward direction has
no date-covering candidate; a reverse-derived hit carries
`usedReverse = true` and both directions in `tried`; when neither direction
yields a candidate the result is a miss (`hit = false`, `row = none`) whose
`hasAnyRoute` is true exactly when either directional index entry is
non-empty, regardless of date. -/
theorem c2_directional_fallback (db : DBType) (date : Int) (fromS toS : String) :
    findFare db date fromS toS = findFareSpec db date fromS toS := by
  simp only [findFare, findFareSpec]
  cases h1 : pickBest (routeList db (resolvePlace db fromS) (resolvePlace db toS)) date with
  | some best => simp [h1, length_pos_eq_not_isEmpty]
  | none =>
    cases h2 : pickBest (routeList db (resolvePlace db toS) (resolvePlace db fromS)) date with
    | some best => simp [h1, h2, length_pos_eq_not_isEmpty]
    | none => simp [h1, h2, length_pos_eq_not_isEmpty]

/-- Claim C9 (amended).  A header label whose normalised form contains
`validfrom` also contains `from`, and the origin synonym set is tested
first, so such labels canonicalise to `from` — not to `wholeFrom` as the
claim states; the label `validTo` likewise canonicalises to `to`. -/
theorem c9_validfrom_header :
    (∀ label : String,
        containsSub "validfrom".data (normHeaderKey label).data = true →
          canonicalKey label = "from") ∧
      canonicalKey "validFrom" = "from" ∧ canonicalKey "validTo" = "to" := by
  refine ⟨?_, by decide, by decide⟩
  intro label h
  have hfrom : containsSub "from".data (normHeaderKey label).data = true :=
    containsSub_trans h (by decide)
  have hsyn : hasSyn (normHeaderKey label)
      ["出発地", "発地", "出発", "from", "origin", "出発場所", "発駅", "乗車地"] = true := by
    unfold hasSyn
    rw [List.any_eq_true]
    refine ⟨"from", by simp, ?_⟩
    have : normHeaderKey "from" = "from" := by decide
    rw [this]
    exact hfrom
  simp [canonicalKey, hsyn]

/-- Witness for C9 at the English label `validFrom`. -/
theorem c9_validfrom_header_witness :
    containsSub "validfrom".data (normHeaderKey "validFrom").data = true ∧
      canonicalKey "validFrom" = "from" :=
  ⟨by decide, c9_validfrom_header.1 "validFrom" (by decide)⟩

/-- Counterexample to C9 as stated: the label `validFrom` does not
canonicalise to `wholeFrom`. -/
theorem c9_validfrom_header_cex : ¬ (canonicalKey "validFrom" = "wholeFrom") := by
  decide

/-- The year-rollover correction as the specification words it, for a
boarding window whose end year exceeds its start year: shift forward one
year every endpoint that shares the window's start year with a month
strictly before the window's start month; if the range's end is then still
before the window start, shift both endpoints one year; clamp to
`max(start, wholeFrom) .. min(end, wholeTo)` and discard when the clamped
start exceeds the clamped end. -/
def alignSpecCrossing (pFrom pTo wf wt : Int) : Option (Int × Int) :=
  let sh := fun d : Int =>
    if yearOf d = yearOf wf ∧ monthOf d < monthOf wf then shiftYear d 1 else d
  let f := sh pFrom
  let t := sh pTo
  let ft := if t < wf then (shiftYear f 1, shiftYear t 1) else (f, t)
  let lo := max ft.1 wf
  let hi := min ft.2 wt
  if lo > hi then none else some (lo, hi)

/-- Claim C4.  For a cross-year boarding window, `alignToWholeRange`
performs exactly the shift–shift–clamp–discard computation of the
specification; in particular the sub-range 2025-01-05..2025-01-20 under the
boarding window 2025-10-26..2026-03-28 is corrected to
2026-01-05..2026-01-20. -/
theorem c4_year_rollover :
    (∀ pFrom pTo wf wt : Int, yearOf wt > yearOf wf →
        alignToWholeRange pFrom pTo (some wf) (some wt) =
          alignSpecCrossing pFrom pTo wf wt) ∧
      alignToWholeRange (mkDate 2025 0 5) (mkDate 2025 0 20)
          (some (mkDate 2025 9 26)) (some (mkDate 2026 2 28)) =
        some (mkDate 2026 0 5, mkDate 2026 0 20) := by
  constructor
  · intro pFrom pTo wf wt hcross
    simp only [alignToWholeRange, alignSpecCrossing]
    simp [hcross]
  · decide

/-- Witness for C4 at the specification's own example window. -/
theorem c4_year_rollover_witness :
    yearOf (mkDate 2026 2 28) > yearOf (mkDate 2025 9 26) ∧
      alignToWholeRange (mkDate 2025 0 5) (mkDate 2025 0 20)
          (some (mkDate 2025 9 26)) (some (mkDate 2026 2 28)) =
        alignSpecCrossing (mkDate 2025 0 5) (mkDate 2025 0 20)
          (mkDate 2025 9 26) (mkDate 2026 2 28) :=
  ⟨by decide, c4_year_rollover.1 _ _ _ _ (by decide)⟩

/-! ### Characterisation of `parseDateLoose` -/

def allDigits (g : List Char) : Prop := ∀ x ∈ g, isDigitC x = true

instance (g : List Char) : Decidable (allDigits g) := by
  unfold allDigits; infer_instance

/-- The language of `^(\d{4})sep(\d{1,2})sep(\d{1,2})$`, with the numeric
values of the three groups. -/
def ymdShape (sep : Char) (cs : List Char) (Y M D : Int) : Prop :=
  ∃ g1 g2 g3 : List Char,
    cs = g1 ++ sep :: (g2 ++ sep :: g3) ∧
    g1.length = 4 ∧ allDigits g1 ∧
    1 ≤ g2.length ∧ g2.length ≤ 2 ∧ allDigits g2 ∧
    1 ≤ g3.length ∧ g3.length ≤ 2 ∧ allDigits g3 ∧
    Y = digitsVal g1 ∧ M = digitsVal g2 ∧ D = digitsVal g3

/-- The language of `^(\d{1,2})[\/\-](\d{1,2})$`. -/
def mdShape (cs : List Char) (M D : Int) : Prop :=
  ∃ (g1 g2 : List Char) (sep : Char),
    cs = g1 ++ sep :: g2 ∧ (sep = '/' ∨ sep = '-') ∧
    1 ≤ g1.length ∧ g1.length ≤ 2 ∧ allDigits g1 ∧
    1 ≤ g2.length ∧ g2.length ≤ 2 ∧ allDigits g2 ∧
    M = digitsVal g1 ∧ D = digitsVal g2

theorem takeWhile_append_all {p : Char → Bool} :
    ∀ (g : List Char) (c : Char) (rest : List Char),
      (∀ x ∈ g, p x = true) → p c = false →
      (g ++ c :: rest).takeWhile p = g ∧ (g ++ c :: rest).dropWhile p = c :: rest
  | [], c, rest, _, hc => by
    simp [List.takeWhile_cons, List.dropWhile_cons, hc]
  | a :: g, c, rest, hg, hc => by
    have ha : p a = true := hg a (List.mem_cons_self a g)
    have ih := takeWhile_append_all g c rest (fun x hx => hg x (List.mem_cons_of_mem a hx)) hc
    simp [List.takeWhile_cons, List.dropWhile_cons, ha, ih.1, ih.2]

theorem takeWhile_all {p : Char → Bool} :
    ∀ (g : List Char), (∀ x ∈ g, p x = true) →
      g.takeWhile p = g ∧ g.dropWhile p = []
  | [], _ => by simp
  | a :: g, hg => by
    have ha : p a = true := hg a (List.mem_cons_self a g)
    have ih := takeWhile_all g (fun x hx => hg x (List.mem_cons_of_mem a hx))
    simp [List.takeWhile_cons, List.dropWhile_cons, ha, ih.1, ih.2]

theorem matchYMD_iff {sep : Char} (hsep : isDigitC sep = false)
    (cs : List Char) (Y M D : Int) :
    matchYMD sep cs = some (Y, M, D) ↔ ymdShape sep cs Y M D := by
  constructor
  · intro h
    simp only [matchYMD] at h
    by_cases h4 : (cs.takeWhile isDigitC).length = 4
    swap
    · rw [if_neg h4] at h; cases h
    rw [if_pos h4] at h
    rcases hdrop : cs.dropWhile isDigitC with _ | ⟨c1, r2⟩
    · rw [hdrop] at h; cases h
    rw [hdrop] at h
    dsimp only at h
    by_cases hc1 : c1 = sep
    swap
    · rw [if_neg hc1] at h; cases h
    rw [if_pos hc1] at h
    by_cases hg2 : 1 ≤ (r2.takeWhile isDigitC).length ∧ (r2.takeWhile isDigitC).length ≤ 2
    swap
    · rw [if_neg hg2] at h; cases h
    rw [if_pos hg2] at h
    rcases hdrop2 : r2.dropWhile isDigitC with _ | ⟨c2, r4⟩
    · rw [hdrop2] at h; cases h
    rw [hdrop2] at h
    dsimp only at h
    by_cases hc2 : c2 = sep
    swap
    · rw [if_neg hc2] at h; cases h
    rw [if_pos hc2] at h
    by_cases hg3 : (1 ≤ (r4.takeWhile isDigitC).length ∧ (r4.takeWhile isDigitC).length ≤ 2) ∧
      r4.dropWhile isDigitC = []
    swap
    · rw [if_neg hg3] at h; cases h
    rw [if_pos hg3] at h
    obtain ⟨hY, hM, hD⟩ : digitsVal (cs.takeWhile isDigitC) = Y ∧
        digitsVal (r2.takeWhile isDigitC) = M ∧ digitsVal (r4.takeWhile isDigitC) = D := by
      simpa using h
    refine ⟨cs.takeWhile isDigitC, r2.takeWhile isDigitC, r4.takeWhile isDigitC,
      ?_, h4, ?_, hg2.1, hg2.2, ?_, hg3.1.1, hg3.1.2, ?_, hY.symm, hM.symm, hD.symm⟩
    · have e1 : cs = cs.takeWhile isDigitC ++ cs.dropWhile isDigitC :=
        (List.takeWhile_append_dropWhile isDigitC cs).symm
      have e2 : r2 = r2.takeWhile isDigitC ++ r2.dropWhile isDigitC :=
        (List.takeWhile_append_dropWhile isDigitC r2).symm
      have e3 : r4 = r4.takeWhile isDigitC ++ r4.dropWhile isDigitC :=
        (List.takeWhile_append_dropWhile isDigitC r4).symm
      have hr4 : List.takeWhile isDigitC r4 = r4 := by
        rw [hg3.2, List.append_nil] at e3
        exact e3.symm
      have hr2 : List.takeWhile isDigitC r2 ++ sep :: r4 = r2 := by
        rw [hdrop2, hc2] at e2
        exact e2.symm
      rw [hr4, hr2, ← hc1, ← hdrop]
      exact e1
    · exact fun x hx => List.mem_takeWhile_imp hx
    · exact fun x hx => List.mem_takeWhile_imp hx
    · exact fun x hx => List.mem_takeWhile_imp hx
  · rintro ⟨g1, g2, g3, hcs, hlen1, hd1, hl2a, hl2b, hd2, hl3a, hl3b, hd3, hY, hM, hD⟩
    subst hcs
    have h1 := takeWhile_append_all g1 sep (g2 ++ sep :: g3) hd1 hsep
    have h2 := takeWhile_append_all g2 sep g3 hd2 hsep
    have h3 := takeWhile_all g3 hd3
    simp only [matchYMD, h1.1, h1.2, h2.1, h2.2, h3.1, h3.2]
    simp [hlen1, hl2a, hl2b, hl3a, hl3b, hY, hM, hD]

theorem matchMD_iff (cs : List Char) (M D : Int) :
    matchMD cs = some (M, D) ↔ mdShape cs M D := by
  constructor
  · intro h
    simp only [matchMD] at h
    by_cases h1 : 1 ≤ (cs.takeWhile isDigitC).length ∧ (cs.takeWhile isDigitC).length ≤ 2
    swap
    · rw [if_neg h1] at h; cases h
    rw [if_pos h1] at h
    rcases hdrop : cs.dropWhile isDigitC with _ | ⟨c1, r2⟩
    · rw [hdrop] at h; cases h
    rw [hdrop] at h
    dsimp only at h
    by_cases hc1 : c1 = '/' ∨ c1 = '-'
    swap
    · rw [if_neg hc1] at h; cases h
    rw [if_pos hc1] at h
    by_cases hg2 : (1 ≤ (r2.takeWhile isDigitC).length ∧ (r2.takeWhile isDigitC).length ≤ 2) ∧
      r2.dropWhile isDigitC = []
    swap
    · rw [if_neg hg2] at h; cases h
    rw [if_pos hg2] at h
    obtain ⟨hM, hD⟩ : digitsVal (cs.takeWhile isDigitC) = M ∧
        digitsVal (r2.takeWhile isDigitC) = D := by simpa using h
    have e1 : cs = cs.takeWhile isDigitC ++ cs.dropWhile isDigitC :=
      (List.takeWhile_append_dropWhile isDigitC cs).symm
    have e2 : r2 = r2.takeWhile isDigitC ++ r2.dropWhile isDigitC :=
      (List.takeWhile_append_dropWhile isDigitC r2).symm
    have hr2 : List.takeWhile isDigitC r2 = r2 := by
      rw [hg2.2, List.append_nil] at e2
      exact e2.symm
    refine ⟨cs.takeWhile isDigitC, r2.takeWhile isDigitC, c1, ?_, hc1,
      h1.1, h1.2, ?_, ?_, ?_, ?_, hM.symm, hD.symm⟩
    · rw [hr2, ← hdrop]
      exact e1
    · exact fun x hx => List.mem_takeWhile_imp hx
    · exact hg2.1.1
    · exact hg2.1.2
    · exact fun x hx => List.mem_takeWhile_imp hx
  · rintro ⟨g1, g2, sep, hcs, hsepor, hl1a, hl1b, hd1, hl2a, hl2b, hd2, hM, hD⟩
    subst hcs
    have hsep : isDigitC sep = false := by
      rcases hsepor with rfl | rfl <;> decide
    have h1 := takeWhile_append_all g1 sep g2 hd1 hsep
    have h2 := takeWhile_all g2 hd2
    simp only [matchMD, h1.1, h1.2, h2.1, h2.2]
    simp [hl1a, hl1b, hl2a, hl2b, hsepor, hM, hD]

/-- A string in the slash `YYYY/MM/DD` language is rejected by the dashed
matcher (the character after the four digits is `/`, not `-`). -/
theorem ymdShape_slash_matchdash_none {cs : List Char} {Y M D : Int}
    (h : ymdShape '/' cs Y M D) : matchYMD '-' cs = none := by
  obtain ⟨g1, g2, g3, hcs, hlen1, hd1, _, _, hd2, _, _, _, _, _, _⟩ := h
  subst hcs
  have h1 := takeWhile_append_all g1 '/' (g2 ++ '/' :: g3) hd1 (by decide)
  simp only [matchYMD, h1.1, h1.2]
  simp [hlen1]

/-- A string in the `M/D`–`M-D` language has a first digit group of length
at most 2, so both `YYYY…` matchers reject it. -/
theorem mdShape_matchYMD_none {cs : List Char} {M D : Int} (sep2 : Char)
    (h : mdShape cs M D) : matchYMD sep2 cs = none := by
  obtain ⟨g1, g2, sep, hcs, hsepor, hl1a, hl1b, hd1, _, _, hd2, _, _⟩ := h
  subst hcs
  have hsep : isDigitC sep = false := by
    rcases hsepor with rfl | rfl <;> decide
  have h1 := takeWhile_append_all g1 sep g2 hd1 hsep
  simp only [matchYMD, h1.1, h1.2]
  have : ¬ g1.length = 4 := by omega
  simp [this]

/-- Claim C5 (amended).  `parseDateLoose` of `src/app.js` accepts exactly
`YYYY-MM-DD`, `YYYY/MM/DD`, and bare `M/D` or `M-D` (year defaulting to the
current calendar year, the explicit parameter `y`); every other input —
including the `YYYY/MM` form the claim lists — yields `none`, and the
function is total (never throws). -/
theorem c5_parse_date_loose :
    (∀ (y : Int) (s : String) (Y M D : Int),
        ymdShape '-' (jsTrim s).data Y M D →
          parseDateLoose y s = some (mkDate Y (M - 1) D)) ∧
      (∀ (y : Int) (s : String) (Y M D : Int),
        ymdShape '/' (jsTrim s).data Y M D →
          parseDateLoose y s = some (mkDate Y (M - 1) D)) ∧
      (∀ (y : Int) (s : String) (M D : Int),
        mdShape (jsTrim s).data M D →
          parseDateLoose y s = some (mkDate y (M - 1) D)) ∧
      ∀ (y : Int) (s : String), (parseDateLoose y s).isSome = true →
        (∃ Y M D : Int, ymdShape '-' (jsTrim s).data Y M D ∨
            ymdShape '/' (jsTrim s).data Y M D) ∨
          ∃ M D : Int, mdShape (jsTrim s).data M D := by
  refine ⟨?_, ?_, ?_, ?_⟩
  · intro y s Y M D h
    have hne : ¬ ((jsTrim s).data = []) := by
      obtain ⟨g1, g2, g3, hcs, _⟩ := h
      rw [hcs]; simp
    have hm : matchYMD '-' (jsTrim s).data = some (Y, M, D) :=
      (matchYMD_iff (by decide) (jsTrim s).data Y M D).2 h
    simp only [parseDateLoose, if_neg hne, hm]
  · intro y s Y M D h
    have hne : ¬ ((jsTrim s).data = []) := by
      obtain ⟨g1, g2, g3, hcs, _⟩ := h
      rw [hcs]; simp
    have hdash : matchYMD '-' (jsTrim s).data = none := ymdShape_slash_matchdash_none h
    have hm : matchYMD '/' (jsTrim s).data = some (Y, M, D) :=
      (matchYMD_iff (by decide) (jsTrim s).data Y M D).2 h
    simp only [parseDateLoose, if_neg hne, hdash, hm]
  · intro y s M D h
    have hne : ¬ ((jsTrim s).data = []) := by
      obtain ⟨g1, g2, sep, hcs, _⟩ := h
      rw [hcs]; simp
    have hdash : matchYMD '-' (jsTrim s).data = none := mdShape_matchYMD_none '-' h
    have hslash : matchYMD '/' (jsTrim s).data = none := mdShape_matchYMD_none '/' h
    have hm : matchMD (jsTrim s).data = some (M, D) :=
      (matchMD_iff (jsTrim s).data M D).2 h
    simp only [parseDateLoose, if_neg hne, hdash, hslash, hm]
  · intro y s h
    simp only [parseDateLoose] at h
    by_cases hne : (jsTrim s).data = []
    · rw [if_pos hne] at h; cases h
    rw [if_neg hne] at h
    cases h1 : matchYMD '-' (jsTrim s).data with
    | some v =>
      exact Or.inl ⟨v.1, v.2.1, v.2.2,
        Or.inl ((matchYMD_iff (by decide) (jsTrim s).data v.1 v.2.1 v.2.2).1 h1)⟩
    | none =>
      rw [h1] at h
      cases h2 : matchYMD '/' (jsTrim s).data with
      | some v =>
        exact Or.inl ⟨v.1, v.2.1, v.2.2,
          Or.inr ((matchYMD_iff (by decide) (jsTrim s).data v.1 v.2.1 v.2.2).1 h2)⟩
      | none =>
        rw [h2] at h
        cases h3 : matchMD (jsTrim s).data with
        | some v =>
          exact Or.inr ⟨v.1, v.2, (matchMD_iff (jsTrim s).data v.1 v.2).1 h3⟩
        | none => rw [h3] at h; cases h

/-- Witness for C5 at one concrete string of each accepted form. -/
theorem c5_parse_date_loose_witness :
    parseDateLoose 2030 "2025-06-15" = some (mkDate 2025 5 15) ∧
      parseDateLoose 2030 "2025/6/5" = some (mkDate 2025 5 5) ∧
      parseDateLoose 2024 "6/15" = some (mkDate 2024 5 15) :=
  ⟨c5_parse_date_loose.1 2030 "2025-06-15" 2025 6 15
      ⟨['2', '0', '2', '5'], ['0', '6'], ['1', '5'], by decide⟩,
    c5_parse_date_loose.2.1 2030 "2025/6/5" 2025 6 5
      ⟨['2', '0', '2', '5'], ['6'], ['5'], by decide⟩,
    c5_parse_date_loose.2.2.1 2024 "6/15" 6 15
      ⟨['6'], ['1', '5'], '/', by decide⟩⟩

/-- Counterexample to C5 as stated: the `YYYY/MM` form (day defaulting
to 1) is not accepted by the v11 `parseDateLoose`. -/
theorem c5_parse_date_loose_cex : parseDateLoose 2025 "2025/06" = none := by
  decide

theorem hasFareShape_fst (rows : List Row) :
    (hasFareShape rows).1 = true ↔
      ∃ r0 rest, rows = r0 :: rest ∧
        getS (normalizeRowKeys r0) "from" ≠ "" ∧
        getS (normalizeRowKeys r0) "to" ≠ "" ∧
        (lookupA (normalizeRowKeys r0) "fare").isSome = true := by
  cases rows with
  | nil => simp [hasFareShape]
  | cons r0 rest =>
    simp only [hasFareShape]
    constructor
    · intro h
      by_cases hok : (decide (getS (normalizeRowKeys r0) "from" ≠ "") &&
          decide (getS (normalizeRowKeys r0) "to" ≠ "") &&
          (lookupA (normalizeRowKeys r0) "fare").isSome) = true
      · simp only [Bool.and_eq_true, decide_eq_true_eq] at hok
        exact ⟨r0, rest, rfl, hok.1.1, hok.1.2, hok.2⟩
      · rw [if_neg hok] at h
        cases h
    · rintro ⟨r0', rest', heq, h1, h2, h3⟩
      obtain ⟨rfl, rfl⟩ := List.cons.inj heq
      have hok : (decide (getS (normalizeRowKeys r0) "from" ≠ "") &&
          decide (getS (normalizeRowKeys r0) "to" ≠ "") &&
          (lookupA (normalizeRowKeys r0) "fare").isSome) = true := by
        simp only [Bool.and_eq_true, decide_eq_true_eq]
        exact ⟨⟨h1, h2⟩, h3⟩
      rw [if_pos hok]

/-- Claim C8.  The core build pipeline is total on arbitrary row content
(every function above returns plain data), and `parseFareRowsFromText`
signals an error exactly when the first parsed row fails the shape check:
a non-empty `from`, a non-empty `to`, and a defined `fare` field after
header normalisation. -/
theorem c8_error_iff_no_fare_shape (text hintedName : String) :
    (∃ e, parseFareRowsFromText text hintedName = Except.error e) ↔
      ¬ ∃ r0 rest,
          (if decideIsTSV text hintedName then parseTSV text else parseCSV text) =
              r0 :: rest ∧
            getS (normalizeRowKeys r0) "from" ≠ "" ∧
            getS (normalizeRowKeys r0) "to" ≠ "" ∧
            (lookupA (normalizeRowKeys r0) "fare").isSome = true := by
  rw [← hasFareShape_fst]
  simp only [parseFareRowsFromText]
  by_cases hs : (hasFareShape
      (if decideIsTSV text hintedName then parseTSV text else parseCSV text)).1 = true
  · rw [if_pos hs]
    simp [hs]
  · rw [if_neg hs]
    simp [hs]

/-! ### Provenance of built fare records -/

theorem mem_processPeriods {src f t pt : String} {fare : Int} {wf wt : Option Int} :
    ∀ (ps : List (Int × Int)) (seen : List String) (rec : FareRecord),
      rec ∈ (processPeriods src f t pt fare wf wt ps seen).1 →
      rec.fromPlace = f ∧ rec.toPlace = t ∧ rec.priceType = pt ∧ rec.fare = fare ∧
        ∃ p ∈ ps, alignToWholeRange p.1 p.2 wf wt = some (rec.validFrom, rec.validTo)
  | [], seen, rec, h => by simp [processPeriods] at h
  | p :: rest, seen, rec, h => by
    simp only [processPeriods] at h
    cases halign : alignToWholeRange p.1 p.2 wf wt with
    | none =>
      rw [halign] at h
      obtain ⟨h1, h2, h3, h4, q, hq, hal⟩ := mem_processPeriods rest seen rec h
      exact ⟨h1, h2, h3, h4, q, List.mem_cons_of_mem _ hq, hal⟩
    | some ab =>
      rw [halign] at h
      dsimp only at h
      by_cases hseen : seen.contains (keyOf f t pt ab.1 ab.2)
      · rw [if_pos hseen] at h
        obtain ⟨h1, h2, h3, h4, q, hq, hal⟩ := mem_processPeriods rest seen rec h
        exact ⟨h1, h2, h3, h4, q, List.mem_cons_of_mem _ hq, hal⟩
      · rw [if_neg hseen] at h
        rcases List.mem_cons.1 h with rfl | htail
        · exact ⟨rfl, rfl, rfl, rfl, p, List.mem_cons_self _ _, halign⟩
        · obtain ⟨h1, h2, h3, h4, q, hq, hal⟩ :=
            mem_processPeriods rest (seen ++ [keyOf f t pt ab.1 ab.2]) rec htail
          exact ⟨h1, h2, h3, h4, q, List.mem_cons_of_mem _ hq, hal⟩

theorem mem_processRows {cy : Int} {src : String} :
    ∀ (rows : List Row) (seen : List String) (rec : FareRecord),
      rec ∈ (processRows cy src rows seen).1 →
      ∃ r ∈ rows,
        rec.fromPlace = jsTrim (getS (normalizeRowKeys r) "from") ∧
        rec.fromPlace ≠ "" ∧
        rec.toPlace = jsTrim (getS (normalizeRowKeys r) "to") ∧
        rec.toPlace ≠ "" ∧
        rec.fare = parseFareJs ((lookupA (normalizeRowKeys r) "fare").getD "0") ∧
        ∃ pf pt,
          alignToWholeRange pf pt
              (parseDateLoose cy (getS (normalizeRowKeys r) "wholeFrom"))
              (parseDateLoose cy (getS (normalizeRowKeys r) "wholeTo")) =
            some (rec.validFrom, rec.validTo)
  | [], seen, rec, h => by simp [processRows] at h
  | r :: rest, seen, rec, h => by
    simp only [processRows] at h
    by_cases hskip : jsTrim (getS (normalizeRowKeys r) "from") = "" ∨
        jsTrim (getS (normalizeRowKeys r) "to") = ""
    · rw [if_pos hskip] at h
      obtain ⟨r', hr', hrest⟩ := mem_processRows rest seen rec h
      exact ⟨r', List.mem_cons_of_mem _ hr', hrest⟩
    · rw [if_neg hskip] at h
      push_neg at hskip
      rcases List.mem_append.1 h with hleft | hright
      · obtain ⟨h1, h2, _, h4, q, hq, hal⟩ := mem_processPeriods _ _ rec hleft
        exact ⟨r, List.mem_cons_self _ _, h1, by rw [h1]; exact hskip.1, h2,
          by rw [h2]; exact hskip.2, h4, q.1, q.2, hal⟩
      · obtain ⟨r', hr', hrest⟩ := mem_processRows rest _ rec hright
        exact ⟨r', List.mem_cons_of_mem _ hr', hrest⟩

theorem clampHelp {a b : Int} (x y : Int)
    (h : (if x > y then (none : Option (Int × Int)) else some (x, y)) = some (a, b)) :
    a ≤ b := by
  by_cases hxy : x > y
  · rw [if_pos hxy] at h; cases h
  · rw [if_neg hxy] at h
    obtain ⟨hx, hy⟩ := Prod.mk.injEq .. ▸ Option.some.inj h
    rw [← hx, ← hy]
    exact not_lt.1 hxy

/-- If both boarding-window bounds are present, an aligned range is always
well-ordered (the clamp discards inverted results). -/
theorem align_some_some_le {pf pt wf wt a b : Int}
    (h : alignToWholeRange pf pt (some wf) (some wt) = some (a, b)) : a ≤ b := by
  simp only [alignToWholeRange] at h
  exact clampHelp _ _ h

/-- Claim C3 (amended).  Every fare record built from a row whose boarding
window columns (`wholeFrom`, `wholeTo`) both parse satisfies
`validFrom ≤ validTo`; when the boarding window is absent the code passes
periods through unclamped, so a record with an inverted window can appear
(see the counterexample). -/
theorem c3_window_invariant (cy : Int) (rows : List Row) (src : String)
    (aliasRows : List Row)
    (hwhole : ∀ r ∈ rows,
      (parseDateLoose cy (getS (normalizeRowKeys r) "wholeFrom")).isSome = true ∧
      (parseDateLoose cy (getS (normalizeRowKeys r) "wholeTo")).isSome = true) :
    ∀ rec ∈ (buildDBFromRows cy rows src aliasRows).faresRows,
      rec.validFrom ≤ rec.validTo := by
  intro rec hrec
  have hmem : rec ∈ (processRows cy src rows []).1 := hrec
  obtain ⟨r, hr, _, _, _, _, _, pf, pt, hal⟩ := mem_processRows rows [] rec hmem
  obtain ⟨hwf, hwt⟩ := hwhole r hr
  obtain ⟨wf, hwfeq⟩ := Option.isSome_iff_exists.1 hwf
  obtain ⟨wt, hwteq⟩ := Option.isSome_iff_exists.1 hwt
  rw [hwfeq, hwteq] at hal
  exact align_some_some_le hal

def c3okRows : List Row :=
  [[("出発地", "A"), ("到着地", "B"), ("運賃", "100"),
    ("搭乗期間開始", "2025-06-01"), ("搭乗期間終了", "2025-06-30")]]

/-- Witness for C3 on a concrete one-row table with a boarding window. -/
theorem c3_window_invariant_witness :
    ((buildDBFromRows 2025 c3okRows "src" []).faresRows.all
      (fun r => decide (r.validFrom ≤ r.validTo))) = true :=
  List.all_eq_true.2 (fun r hr => decide_eq_true
    (c3_window_invariant 2025 c3okRows "src" [] (by decide) r hr))

def c3badRows : List Row :=
  [[("出発地", "A"), ("到着地", "B"), ("運賃", "100"),
    ("価格適用開始", "2025-06-30"), ("価格適用終了", "2025-06-01")]]

/-- Counterexample to C3 as stated: a row with explicit validity columns in
inverted order and no boarding window yields a record with
`validFrom > validTo`. -/
theorem c3_window_invariant_cex :
    ((buildDBFromRows 2025 c3badRows "src" []).faresRows.any
      (fun r => decide (r.validTo < r.validFrom))) = true := by
  decide

/-! ### Fare parsing (claim C6) -/

theorem digit_toNat_ge {c : Char} (h : isDigitC c = true) : 48 ≤ (c.toNat : Int) := by
  simp only [isDigitC, Bool.and_eq_true, decide_eq_true_eq] at h
  have h1 := h.1
  rw [Char.le_def] at h1
  have h2 : (48 : UInt32) ≤ c.val := h1
  rw [UInt32.le_def] at h2
  have h3 : (48 : Nat) ≤ c.val.toNat := h2
  simp only [Char.toNat]
  omega

theorem digitsVal_aux_nonneg :
    ∀ (cs : List Char) (acc : Int), 0 ≤ acc → (∀ c ∈ cs, isDigitC c = true) →
      0 ≤ cs.foldl (fun a c => a * 10 + ((c.toNat : Int) - 48)) acc
  | [], _, ha, _ => ha
  | c :: cs, acc, ha, h => by
    have h48 := digit_toNat_ge (h c (List.mem_cons_self c cs))
    exact digitsVal_aux_nonneg cs _
      (by show 0 ≤ acc * 10 + ((c.toNat : Int) - 48); omega)
      (fun x hx => h x (List.mem_cons_of_mem _ hx))

theorem digitsVal_nonneg {cs : List Char} (h : ∀ c ∈ cs, isDigitC c = true) :
    0 ≤ digitsVal cs :=
  digitsVal_aux_nonneg cs 0 le_rfl h

theorem jsParseInt10_nonneg {s : String} (h : ∀ c ∈ s.data, c ≠ '-') :
    0 ≤ (jsParseInt10 s).getD 0 := by
  simp only [jsParseInt10]
  cases hcs : s.data.dropWhile isJsSpace with
  | nil => simp
  | cons c rest =>
    have hmem : c ∈ s.data :=
      (List.dropWhile_sublist isJsSpace).subset (hcs ▸ List.mem_cons_self c rest)
    have hcne : ¬ (c = '-') := h c hmem
    dsimp only
    rw [if_neg hcne]
    by_cases hplus : c = '+'
    · rw [if_pos hplus]
      by_cases hds : rest.takeWhile isDigitC = []
      · simp [hds]
      · rw [if_neg hds]
        simpa using digitsVal_nonneg (fun x hx => List.mem_takeWhile_imp hx)
    · rw [if_neg hplus]
      by_cases hds : (c :: rest).takeWhile isDigitC = []
      · simp [hds]
      · rw [if_neg hds]
        simpa using digitsVal_nonneg (fun x hx => List.mem_takeWhile_imp hx)

/-- Claim C6 (amended).  The fare parser keeps digit and minus characters
and applies `parseInt` (non-numeric text coerces to 0, never fails), so
every built record's fare is an integer; the fare is non-negative whenever
the raw cell contains no minus character, but a cell with a leading minus
produces a negative fare (so the claim's unconditional `fare ≥ 0` is
false — see the counterexample). -/
theorem c6_fare_parsing :
    (∀ s : String, (∀ c ∈ s.data, c ≠ '-') → 0 ≤ parseFareJs s) ∧
      (∀ s : String, (∀ c ∈ s.data, ¬(isDigitC c = true ∨ c = '-')) →
        parseFareJs s = 0) ∧
      ∀ (cy : Int) (rows : List Row) (src : String) (aliasRows : List Row),
        (∀ r ∈ rows,
          ∀ c ∈ ((lookupA (normalizeRowKeys r) "fare").getD "0").data, c ≠ '-') →
        ∀ rec ∈ (buildDBFromRows cy rows src aliasRows).faresRows, 0 ≤ rec.fare := by
  refine ⟨?_, ?_, ?_⟩
  · intro s h
    apply jsParseInt10_nonneg
    intro c hc
    simp only [extractFareDigits] at hc
    exact h c (List.mem_of_mem_filter hc)
  · intro s h
    have hnil : s.data.filter (fun c => isDigitC c || decide (c = '-')) = [] := by
      rw [List.filter_eq_nil_iff]
      intro c hc
      simp only [Bool.or_eq_true, decide_eq_true_eq]
      exact h c hc
    simp only [parseFareJs, extractFareDigits]
    rw [hnil]
    decide
  · intro cy rows src aliasRows hfare rec hrec
    have hmem : rec ∈ (processRows cy src rows []).1 := hrec
    obtain ⟨r, hr, _, _, _, _, hfeq, _⟩ := mem_processRows rows [] rec hmem
    rw [hfeq]
    apply jsParseInt10_nonneg
    intro c hc
    simp only [extractFareDigits] at hc
    exact hfare r hr c (List.mem_of_mem_filter hc)

def c6okRows : List Row :=
  [[("出発地", "A"), ("到着地", "B"), ("運賃", "100"),
    ("搭乗期間開始", "2025-06-01"), ("搭乗期間終了", "2025-06-30")]]

/-- Witness for C6 on a concrete table whose fare cells have no minus. -/
theorem c6_fare_parsing_witness :
    ((buildDBFromRows 2025 c6okRows "src" []).faresRows.all
      (fun r => decide (0 ≤ r.fare))) = true :=
  List.all_eq_true.2 (fun r hr => decide_eq_true
    (c6_fare_parsing.2.2 2025 c6okRows "src" [] (by decide) r hr))

def c6badRows : List Row :=
  [[("出発地", "A"), ("到着地", "B"), ("運賃", "-500"),
    ("搭乗期間開始", "2025-06-01"), ("搭乗期間終了", "2025-06-30")]]

/-- Counterexample to C6 as stated: the fare cell `-500` survives digit and
minus extraction and yields a record with a negative fare. -/
theorem c6_fare_parsing_cex :
    ((buildDBFromRows 2025 c6badRows "src" []).faresRows.any
      (fun r => decide (r.fare < 0))) = true := by
  decide

/-! ### Association-list lemmas and alias-table construction (claim C7) -/

theorem lookupA_setA_self {α : Type} :
    ∀ (m : List (String × α)) (k : String) (v : α), lookupA (setA m k v) k = some v
  | [], k, v => by simp [setA, lookupA]
  | (k', w) :: rest, k, v => by
    by_cases h : k' = k
    · simp [setA, lookupA, h]
    · simp only [setA, if_neg h, lookupA]
      exact lookupA_setA_self rest k v

theorem lookupA_setA_ne {α : Type} :
    ∀ (m : List (String × α)) (k k' : String) (v : α), k ≠ k' →
      lookupA (setA m k v) k' = lookupA m k'
  | [], k, k', v, h => by simp [setA, lookupA, h]
  | (k0, w) :: rest, k, k', v, h => by
    by_cases h0 : k0 = k
    · simp only [setA, if_pos h0, lookupA, if_neg h, h0]
    · simp only [setA, if_neg h0, lookupA]
      by_cases h1 : k0 = k'
      · rw [if_pos h1, if_pos h1]
      · rw [if_neg h1, if_neg h1]
        exact lookupA_setA_ne rest k k' v h

/-- A fold preserves any invariant its steps preserve. -/
theorem foldl_preserve {α β : Type} (P : β → Prop) (f : β → α → β) :
    ∀ (l : List α) (b : β), P b → (∀ m x, x ∈ l → P m → P (f m x)) →
      P (l.foldl f b)
  | [], _, hb, _ => hb
  | x :: l, b, hb, hs =>
    foldl_preserve P f l (f b x) (hs b x (List.mem_cons_self x l) hb)
      (fun m y hy hm => hs m y (List.mem_cons_of_mem _ hy) hm)

/-- After the self-mapping loop, a place whose normalised key is shared by
no other listed place maps to itself. -/
theorem lookup_selfmap_fold :
    ∀ (places : List String) (p : String) (m0 : List (String × String)),
      p ∈ places → (∀ q ∈ places, normKey q = normKey p → q = p) →
      lookupA (places.foldl (fun m q => setA m (normKey q) q) m0) (normKey p) = some p
  | [], p, m0, hp, _ => absurd hp (List.not_mem_nil p)
  | q :: rest, p, m0, hp, hinj => by
    rw [List.foldl_cons]
    by_cases hpr : p ∈ rest
    · exact lookup_selfmap_fold rest p _ hpr
        (fun x hx hk => hinj x (List.mem_cons_of_mem _ hx) hk)
    · have hpq : p = q := by
        rcases List.mem_cons.1 hp with h | h
        · exact h
        · exact absurd h hpr
      subst hpq
      have hrest : ∀ x ∈ rest, normKey x ≠ normKey p := by
        intro x hx hk
        exact hpr (hinj x (List.mem_cons_of_mem _ hx) hk ▸ hx)
      exact foldl_preserve (fun m => lookupA m (normKey p) = some p) _ rest _
        (lookupA_setA_self m0 _ _)
        (fun m x hx hm => by
          show lookupA (setA m (normKey x) x) (normKey p) = some p
          rw [lookupA_setA_ne m (normKey x) (normKey p) x (hrest x hx)]
          exact hm)

/-- A guarded `if !m.has(k) then m.set(k, v)` step cannot disturb a key that
is already bound. -/
theorem lookupA_guardedSet {α : Type} (m : List (String × α)) (k k' : String)
    (v : α) (w : α) (h : lookupA m k = some v) :
    lookupA (if (lookupA m k').isSome then m else setA m k' w) k = some v := by
  by_cases hg : (lookupA m k').isSome
  · rw [if_pos hg]; exact h
  · rw [if_neg hg]
    have hne : k' ≠ k := by
      intro heq
      rw [heq, h] at hg
      exact hg (by simp)
    rw [lookupA_setA_ne m k' k w hne]
    exact h

/-- The whole default alias table keeps every uniquely-keyed place mapped to
itself. -/
theorem lookup_aliasDefaults (places : List String) (p : String)
    (hp : p ∈ places) (hinj : ∀ q ∈ places, normKey q = normKey p → q = p) :
    lookupA (buildAliasDefaultsFromPlaces places) (normKey p) = some p := by
  simp only [buildAliasDefaultsFromPlaces]
  refine foldl_preserve (fun m => lookupA m (normKey p) = some p) _ _ _ ?_ ?_
  · refine foldl_preserve (fun m => lookupA m (normKey p) = some p) _ _ _ ?_ ?_
    · exact lookup_selfmap_fold places p [] hp hinj
    · intro m x _ hm
      exact foldl_preserve (fun m => lookupA m (normKey p) = some p) _ _ m hm
        (fun m' v _ hm' => lookupA_guardedSet m' (normKey p) (normKey v) p x hm')
  · intro m ac _ hm
    by_cases hc : places.contains ac.2 = true ∧ (lookupA m (normKey ac.1)).isNone = true
    · rw [if_pos hc]
      have hne : normKey ac.1 ≠ normKey p := by
        intro heq
        rw [heq, hm] at hc
        exact absurd hc.2 (by simp)
      rw [lookupA_setA_ne m _ _ _ hne]
      exact hm
    · rw [if_neg hc]
      exact hm

/-- The external-alias merge keeps `p` self-mapped provided no external row
remaps `p`'s key. -/
theorem lookup_mergeAlias (m : List (String × String)) (aliasRows : List Row)
    (p : String) (hm : lookupA m (normKey p) = some p)
    (hext : ∀ a ∈ aliasRows,
      jsTrim (getS (normalizeRowKeys a) "alias") ≠ "" →
      jsTrim (getS (normalizeRowKeys a) "canonical") ≠ "" →
      normKey (jsTrim (getS (normalizeRowKeys a) "alias")) ≠ normKey p) :
    lookupA (mergeAliasRows m aliasRows) (normKey p) = some p := by
  simp only [mergeAliasRows]
  refine foldl_preserve (fun m => lookupA m (normKey p) = some p) _ _ _ hm ?_
  intro m' a ha hm'
  by_cases hempty : jsTrim (getS (normalizeRowKeys a) "alias") = "" ∨
      jsTrim (getS (normalizeRowKeys a) "canonical") = ""
  · rw [if_pos hempty]; exact hm'
  · rw [if_neg hempty]
    push_neg at hempty
    rw [lookupA_setA_ne m' _ _ _ (hext a ha hempty.1 hempty.2)]
    exact hm'

/-- Claim C7 (amended).  Alias resolution is idempotent on the built place
set as long as the place's key survives construction: for every place `p`
whose normalised key is non-empty, not shared with another place in the
set, and not overridden by an external alias row, `resolvePlace(p) = p`.
With external alias rows the claim as stated fails (see the
counterexample): external rows override unconditionally, including a
place's own self-mapping. -/
theorem c7_alias_idempotent (cy : Int) (rows : List Row) (src : String)
    (aliasRows : List Row) (p : String)
    (hp : p ∈ (buildDBFromRows cy rows src aliasRows).places)
    (hk : normKey p ≠ "")
    (hinj : ∀ q ∈ (buildDBFromRows cy rows src aliasRows).places,
      normKey q = normKey p → q = p)
    (hext : ∀ a ∈ aliasRows,
      jsTrim (getS (normalizeRowKeys a) "alias") ≠ "" →
      jsTrim (getS (normalizeRowKeys a) "canonical") ≠ "" →
      normKey (jsTrim (getS (normalizeRowKeys a) "alias")) ≠ normKey p) :
    resolvePlace (buildDBFromRows cy rows src aliasRows) p = p := by
  have hplaces : (buildDBFromRows cy rows src aliasRows).places =
      sortStrings (placesOf (processRows cy src rows []).1) := rfl
  have halias : (buildDBFromRows cy rows src aliasRows).aliasToCanon =
      mergeAliasRows
        (buildAliasDefaultsFromPlaces
          (sortStrings (placesOf (processRows cy src rows []).1)))
        aliasRows := rfl
  rw [hplaces] at hp hinj
  have hlook := lookup_mergeAlias _ aliasRows p
    (lookup_aliasDefaults _ p hp hinj) hext
  have hpne : p ≠ "" := by
    intro he
    exact hk (by rw [he]; rfl)
  simp only [resolvePlace]
  rw [if_neg hk, halias, hlook]
  dsimp only
  rw [if_neg hpne]

def c7rows : List Row :=
  [[("出発地", "Tokyo"), ("到着地", "Okinawa"), ("運賃", "100"),
    ("搭乗期間開始", "2025-06-01"), ("搭乗期間終了", "2025-06-30")]]

/-- Witness for C7 on a concrete table built without external alias rows. -/
theorem c7_alias_idempotent_witness :
    resolvePlace (buildDBFromRows 2025 c7rows "s" []) "Tokyo" = "Tokyo" :=
  c7_alias_idempotent 2025 c7rows "s" [] "Tokyo"
    (by decide) (by decide) (by decide) (by decide)

def c7aliasRows : List Row := [[("alias", "Tokyo"), ("canonical", "Edo")]]

/-- Counterexample to C7 as stated: an external alias row that remaps the
key of the place `Tokyo` itself makes resolution non-idempotent on the
built place set. -/
theorem c7_alias_idempotent_cex :
    "Tokyo" ∈ (buildDBFromRows 2025 c7rows "s" c7aliasRows).places ∧
      resolvePlace (buildDBFromRows 2025 c7rows "s" c7aliasRows) "Tokyo" ≠ "Tokyo" := by
  decide

/-! ### Route-index keying (claim C10) -/

theorem lookupA_append_some {α : Type} :
    ∀ (m1 m2 : List (String × α)) (k : String) (v : α),
      lookupA m1 k = some v → lookupA (m1 ++ m2) k = some v
  | [], _, _, _, h => by cases h
  | (k0, w) :: rest, m2, k, v, h => by
    simp only [lookupA] at h ⊢
    by_cases h0 : k0 = k
    · rw [if_pos h0] at h ⊢; exact h
    · rw [if_neg h0] at h ⊢
      exact lookupA_append_some rest m2 k v h

theorem lookupA_append_none {α : Type} :
    ∀ (m1 m2 : List (String × α)) (k : String),
      lookupA m1 k = none → lookupA (m1 ++ m2) k = lookupA m2 k
  | [], _, _, _ => rfl
  | (k0, w) :: rest, m2, k, h => by
    simp only [lookupA] at h ⊢
    by_cases h0 : k0 = k
    · rw [if_pos h0] at h; cases h
    · rw [if_neg h0] at h ⊢
      exact lookupA_append_none rest m2 k h

theorem lookupA_map_value {α β : Type} (f : α → β) :
    ∀ (m : List (String × α)) (k : String),
      lookupA (m.map (fun kv => (kv.1, f kv.2))) k = (lookupA m k).map f
  | [], _ => rfl
  | (k0, v) :: rest, k => by
    simp only [List.map_cons, lookupA]
    by_cases h0 : k0 = k
    · rw [if_pos h0, if_pos h0]; rfl
    · rw [if_neg h0, if_neg h0]
      exact lookupA_map_value f rest k

/-- Every record stored under a key of the grouped route index carries
exactly that key, built from its own (raw) place strings. -/
theorem groupFares_key (fares : List FareRecord) :
    ∀ (k : String) (g : List FareRecord), lookupA (groupFares fares) k = some g →
      ∀ rec ∈ g, k = normKey rec.fromPlace ++ "||" ++ normKey rec.toPlace := by
  simp only [groupFares]
  refine foldl_preserve
    (fun m => ∀ (k : String) (g : List FareRecord), lookupA m k = some g →
      ∀ rec ∈ g, k = normKey rec.fromPlace ++ "||" ++ normKey rec.toPlace)
    _ fares [] (fun k g h => by cases h) ?_
  intro m row _ hP k g hg rec hrec
  revert hg
  cases harr : lookupA m (normKey row.fromPlace ++ "||" ++ normKey row.toPlace) with
  | some arr =>
    intro hg
    by_cases hk : normKey row.fromPlace ++ "||" ++ normKey row.toPlace = k
    · rw [← hk] at hg
      rw [lookupA_setA_self] at hg
      obtain rfl := Option.some.inj hg
      rcases List.mem_append.1 hrec with hl | hr
      · exact hk ▸ hP _ arr harr rec hl
      · obtain rfl := List.mem_singleton.1 hr
        exact hk.symm
    · rw [lookupA_setA_ne _ _ _ _ hk] at hg
      exact hP k g hg rec hrec
  | none =>
    intro hg
    by_cases hk : normKey row.fromPlace ++ "||" ++ normKey row.toPlace = k
    · rw [← hk, lookupA_append_none m _ _ harr] at hg
      simp only [lookupA, if_pos rfl] at hg
      obtain rfl := Option.some.inj hg
      obtain rfl := List.mem_singleton.1 hrec
      exact hk.symm
    · cases hm : lookupA m k with
      | some arr' =>
        rw [lookupA_append_some m _ _ _ hm] at hg
        obtain rfl := Option.some.inj hg
        exact hP k _ hm rec hrec
      | none =>
        rw [lookupA_append_none m _ _ hm] at hg
        simp only [lookupA] at hg
        rw [if_neg hk] at hg
        cases hg

def c10rows : List Row :=
  [[("出発地", "HND"), ("到着地", "OKA"), ("運賃", "5000"),
    ("搭乗期間開始", "2025-06-01"), ("搭乗期間終了", "2025-06-30")]]

def c10alias : List Row := [[("alias", "HND"), ("canonical", "Tokyo")]]

/-- Claim C10.  Records are indexed in the route map under keys built from
their raw (never alias-resolved) `from`/`to` strings, while `findFare`
alias-resolves the query before computing the key; consequently, with an
alias row remapping a record's own raw place name, querying the record's
raw names misses even though the record is in the table. -/
theorem c10_raw_key_indexing :
    (∀ (cy : Int) (rows : List Row) (src : String) (aliasRows : List Row)
        (k : String) (g : List FareRecord),
        lookupA (buildDBFromRows cy rows src aliasRows).routeMap k = some g →
        ∀ rec ∈ g, k = normKey rec.fromPlace ++ "||" ++ normKey rec.toPlace) ∧
      ((buildDBFromRows 2025 c10rows "s" c10alias).faresRows.any
          (fun r => decide (r.fromPlace = "HND" ∧ r.toPlace = "OKA")) = true ∧
        (findFare (buildDBFromRows 2025 c10rows "s" c10alias)
            (mkDate 2025 5 15) "HND" "OKA").hit = false) := by
  constructor
  · intro cy rows src aliasRows k g hg rec hrec
    have hrm : (buildDBFromRows cy rows src aliasRows).routeMap =
        sortGroups (groupFares (processRows cy src rows []).1) := rfl
    rw [hrm] at hg
    simp only [sortGroups] at hg
    rw [lookupA_map_value] at hg
    obtain ⟨g0, hg0, rfl⟩ := Option.map_eq_some'.1 hg
    exact groupFares_key _ k g0 hg0 rec ((List.mem_insertionSort idxLe).1 hrec)
  · exact ⟨by decide, by decide⟩

def c10rec : FareRecord :=
  ⟨"HND", "OKA", "通常", 5000, mkDate 2025 5 1, mkDate 2025 5 30, "s"⟩

/-- Witness for C10: the concrete record is stored under the raw key
`hnd||oka`. -/
theorem c10_raw_key_indexing_witness :
    ("hnd||oka" : String) = normKey c10rec.fromPlace ++ "||" ++ normKey c10rec.toPlace :=
  c10_raw_key_indexing.1 2025 c10rows "s" c10alias "hnd||oka" [c10rec]
    (by decide) c10rec (by decide)
